import Mathlib

/-!
# Verification of the HRM session-lifecycle and buffering core

Shallow embedding of the Python sources under `HRM/` (principally
`localDB/data_processor.py`, `localDB/session_manager.py`,
`localDB/database.py` and `data_logger.py`) together with proofs about
the embedded operations.

Conventions of the embedding:
* Python floats (timestamps, speeds, heart rates, RR intervals) are
  modelled as rationals `ℚ`; the claims under study involve only exact
  arithmetic on such values.
* Python dicts with a fixed field set are modelled as structures whose
  optional keys are `Option`-valued.
* `time.time()` is modelled by threading an explicit `now : ℚ` argument.
* Printing and logging are side effects with no bearing on state and are
  dropped.
-/

namespace HRM

/-! ## Records

`Rec` models the processed-sample dict built by
`DataProcessor.process_ble_data` and consumed by `validate_data`,
`add_to_buffer` and the database writer.  `timestamp` is always present
(the decoder defaults it to `time.time()`); every other key is optional.
-/

/-- A processed sample record (the dict produced by `process_ble_data`).
The `hrv_rmssd_sq` field stores the radicand of the source's
`math.sqrt` (see `calculate_rmssd_sq` below): the source value of the
`hrv_rmssd` key is the real square root of this rational. -/
structure Rec where
  timestamp : ℚ
  hr_bpm : Option ℚ := none
  battery_pct : Option ℚ := none
  rr_intervals : Option (List ℚ) := none
  hrv_rmssd_sq : Option ℚ := none
  speed_mps : Option ℚ := none
  cadence_spm : Option ℚ := none
  stride_length_cm : Option ℚ := none
  total_distance_m : Option ℚ := none
  contact_status : Option ℤ := none
  is_running : Bool := false
  raw_payload : Option String := none
deriving DecidableEq

/-! ## Sample decoder (`DataProcessor.process_ble_data`, data_processor.py 27-88)

The raw BLE dict is modelled by `BleData`; `contact_status` may arrive
as a string label or as an integer, hence the sum type.
-/

/-- The raw dict received from the BLE bridge websocket. -/
structure BleData where
  ts_unix_s : Option ℚ := none
  hr_bpm : Option ℚ := none
  battery_pct : Option ℚ := none
  raw_payload : Option String := none
  rr_s : List ℚ := []
  speed_kph : Option ℚ := none
  speed_mps : Option ℚ := none
  cadence_spm : Option ℚ := none
  stride_length_cm : Option ℚ := none
  total_distance_m : Option ℚ := none
  distance_m : Option ℚ := none
  contact_status : Option (String ⊕ ℤ) := none
deriving DecidableEq

/-- `_calculate_rmssd` (data_processor.py 90-114) computes
`sqrt(mean((1000*(rr[i]-rr[i-1]))^2))`.  This definition is the exact
radicand of that square root (the mean of the squared successive
differences in milliseconds); the source's return value is
`Real.sqrt` of it.  For fewer than 2 intervals the source returns 0. -/
def calculate_rmssd_sq (rr : List ℚ) : ℚ :=
  if rr.length < 2 then 0
  else
    let diffs := (List.range (rr.length - 1)).map
      (fun i => ((rr.getD (i + 1) 0 - rr.getD i 0) * 1000) ^ 2)
    if diffs.length = 0 then 0 else diffs.sum / diffs.length

/-- The spec's formula for the RMSSD radicand, written independently of
the source loop: convert to ms, take successive first differences
(`zipWith` of the list against its tail), square, average. -/
def specMeanSqDiffMs (rr : List ℚ) : ℚ :=
  let diffs := List.zipWith (fun a b => ((b - a) * 1000) ^ 2) rr rr.tail
  if diffs.length = 0 then 0 else diffs.sum / diffs.length

/-- `contact_status` lookup table (data_processor.py 74-79); unknown
labels default to 0. -/
def statusMap (s : String) : ℤ :=
  if s = "N/A" then 0
  else if s = "No Contact" then 1
  else if s = "Good Contact" then 2
  else 0

/-- `DataProcessor.process_ble_data` (data_processor.py 27-88).
`now` models `time.time()`, the default for a missing `ts_unix_s`. -/
def process_ble_data (d : BleData) (now : ℚ) : Rec :=
  let speed : Option ℚ :=
    match d.speed_kph with
    | some v => some (v / (36/10))
    | none => d.speed_mps
  let dist : Option ℚ :=
    match d.total_distance_m with
    | some v => some v
    | none => d.distance_m
  let contact : Option ℤ :=
    match d.contact_status with
    | some (Sum.inl s) => some (statusMap s)
    | some (Sum.inr n) => some n
    | none => none
  { timestamp := d.ts_unix_s.getD now
    hr_bpm := d.hr_bpm
    battery_pct := d.battery_pct
    raw_payload := d.raw_payload
    rr_intervals := if d.rr_s.length = 0 then none else some d.rr_s
    hrv_rmssd_sq :=
      if d.rr_s.length = 0 then none
      else if 1 < d.rr_s.length then some (calculate_rmssd_sq d.rr_s) else none
    speed_mps := speed
    cadence_spm := d.cadence_spm
    stride_length_cm := d.stride_length_cm
    total_distance_m := dist
    contact_status := contact
    is_running := decide (2 < speed.getD 0 ∨ 120 < d.cadence_spm.getD 0) }

/-! ## Validator (`DataProcessor.validate_data`, data_processor.py 178-217)

The source first rejects an empty dict; a `Rec` always carries its
mandatory `timestamp` key so the modelled dict is never empty and that
branch is vacuous here.  Each subsequent check applies only when the
field is present and returns an error string immediately on failure.
The function reads its argument and returns only the error option, so
non-mutation of the sample is structural in the embedding. -/
def validate_data (d : Rec) : Option String :=
  if ¬ (∀ hr ∈ d.hr_bpm, 30 ≤ hr ∧ hr ≤ 250) then some "Invalid heart rate"
  else if ¬ (∀ b ∈ d.battery_pct, 0 ≤ b ∧ b ≤ 100) then some "Invalid battery percentage"
  else if ¬ (∀ s ∈ d.speed_mps, 0 ≤ s ∧ s ≤ 20) then some "Invalid speed"
  else if ¬ (∀ c ∈ d.cadence_spm, 0 ≤ c ∧ c ≤ 300) then some "Invalid cadence"
  else none

/-! ## Deduplicator/Buffer (`DataProcessor.add_to_buffer` etc.,
data_processor.py 116-176)

`buffers` maps a session id to its pending queue (a `deque` with
`maxlen = buffer_size`); a missing key is the empty queue, matching the
lazy creation in the source.  `last_timestamps` maps a session id to
its high-water mark; the source reads it with
`self.last_timestamps.get(session_id, 0)`, so a missing key behaves as
the value 0. -/
structure DataProcessor where
  buffer_size : ℕ
  buffers : String → List Rec
  last_timestamps : String → Option ℚ

/-- The processor as built by `__init__`: empty buffers, no watermarks. -/
def freshProcessor (buffer_size : ℕ) : DataProcessor :=
  { buffer_size := buffer_size
    buffers := fun _ => []
    last_timestamps := fun _ => none }

/-- The last `n` elements of a list (what a `maxlen = n` deque
retains). -/
def lastN {α : Type} (n : ℕ) (l : List α) : List α := l.drop (l.length - n)

/-- `deque(maxlen = n).append x`: append on the right, silently dropping
from the left whatever exceeds the capacity `n`. -/
def dequeAppend (n : ℕ) (q : List Rec) (x : Rec) : List Rec :=
  let q' := q ++ [x]
  q'.drop (q'.length - n)

/-- `DataProcessor.add_to_buffer` (data_processor.py 116-145).  Returns
the `ready_to_flush` boolean together with the updated processor. -/
def add_to_buffer (p : DataProcessor) (session_id : String) (data : Rec) :
    Bool × DataProcessor :=
  let timestamp := data.timestamp
  let last_ts := (p.last_timestamps session_id).getD 0
  if timestamp ≤ last_ts then (false, p)
  else
    let q := dequeAppend p.buffer_size (p.buffers session_id) data
    (decide (p.buffer_size ≤ q.length),
     { p with
        last_timestamps := Function.update p.last_timestamps session_id (some timestamp)
        buffers := Function.update p.buffers session_id q })

/-- `DataProcessor.get_buffer` (data_processor.py 147-162): return the
queue's contents and clear it. -/
def get_buffer (p : DataProcessor) (session_id : String) :
    List Rec × DataProcessor :=
  (p.buffers session_id,
   { p with buffers := Function.update p.buffers session_id [] })

/-- Offer a list of samples to one session in order, collecting each
offer's `ready_to_flush` result (the ingestion loop of
`data_logger.py` with no intervening flush). -/
def offerAll (p : DataProcessor) (session_id : String) :
    List Rec → List Bool × DataProcessor
  | [] => ([], p)
  | d :: ds =>
    let (r, p') := add_to_buffer p session_id d
    let (rs, p'') := offerAll p' session_id ds
    (r :: rs, p'')

/-! ## Database (`HRMDatabase`, database.py)

Only the state visible to the claims is modelled: the `sessions` table,
the `raw_metrics` rows (as `session id × record` pairs) and the
`aggregated_metrics` table.  Session ids are modelled as naturals drawn
from a fresh counter `next_id`; the source derives uniqueness from a
uuid plus the clock, which the counter abstracts (every id ever
issued is `< next_id`). -/

/-- One row of the `sessions` table (the columns the claims touch). -/
structure SessionRow where
  session_id : ℕ
  start_time : ℚ
  end_time : Option ℚ
  device_id : String
  device_name : Option String
deriving DecidableEq

/-- Aggregate key: the `UNIQUE(session_id, interval_start,
interval_seconds)` constraint of `aggregated_metrics` (database.py
82-101). -/
structure AggKey where
  session_id : ℕ
  interval_start : ℚ
  interval_seconds : ℤ
deriving DecidableEq

/-- Aggregate value columns written by `compute_aggregates`. -/
structure AggVal where
  avg_hr : Option ℚ
  min_hr : Option ℚ
  max_hr : Option ℚ
  avg_speed : Option ℚ
  max_speed : Option ℚ
  avg_cadence : Option ℚ
  total_distance : Option ℚ
  sample_count : ℕ
deriving DecidableEq

/-- Database state.  `aggregates` is the `aggregated_metrics` table as
a map honouring its UNIQUE key (INSERT OR REPLACE = update). -/
structure DB where
  sessions : List SessionRow
  raw_metrics : List (ℕ × Rec)
  aggregates : AggKey → Option AggVal
  next_id : ℕ

/-- `HRMDatabase.create_session` (database.py 151-160): insert a fresh
open session row and return its id. -/
def create_session (db : DB) (device_id : String) (device_name : Option String)
    (now : ℚ) : ℕ × DB :=
  let sid := db.next_id
  (sid,
   { db with
      sessions := db.sessions ++
        [{ session_id := sid, start_time := now, end_time := none
           device_id := device_id, device_name := device_name }]
      next_id := db.next_id + 1 })

/-- `HRMDatabase.update_session_end_time` (database.py 162-171): when
no explicit end time is supplied the source defaults it to
`time.time()`, i.e. `now`. -/
def update_session_end_time (db : DB) (session_id : ℕ) (end_time : Option ℚ)
    (now : ℚ) : DB :=
  let e := end_time.getD now
  { db with
     sessions := db.sessions.map
       (fun r => if r.session_id = session_id then { r with end_time := some e } else r) }

/-- The WHERE/EXISTS predicate of `get_active_session` (database.py
245-257): an open session row of the device with a raw metric newer
than the cutoff. -/
def activeCand (db : DB) (device_id : String) (cutoff : ℚ) (s : SessionRow) : Bool :=
  decide (s.device_id = device_id) && decide (s.end_time = none) &&
    db.raw_metrics.any
      (fun m => decide (m.1 = s.session_id) && decide (cutoff < m.2.timestamp))

/-- `HRMDatabase.get_active_session` (database.py 240-260): the open
session of the device having a raw metric newer than `now - gap`, most
recently started first (`ORDER BY start_time DESC LIMIT 1`). -/
def get_active_session (db : DB) (device_id : String) (gap_seconds : ℚ)
    (now : ℚ) : Option ℕ :=
  ((db.sessions.filter (activeCand db device_id (now - gap_seconds))).foldl
    (fun acc s =>
      match acc with
      | none => some s
      | some b => if b.start_time < s.start_time then some s else some b) none).map
    (·.session_id)

/-! ## Session manager (`SessionManager`, session_manager.py)

The two dicts `active_sessions` and `last_activity` are modelled as
association lists (one entry per device).  `time.time()` is the
explicit `now` argument of each operation. -/

/-- Lookup in an association list (Python `dict.get`). -/
def alookup {α : Type} (l : List (String × α)) (k : String) : Option α :=
  (l.find? (fun p => p.1 = k)).map (·.2)

/-- `dict[k] = v`: replace the entry if present, else append it. -/
def aset {α : Type} (l : List (String × α)) (k : String) (v : α) :
    List (String × α) :=
  if l.any (fun p => p.1 = k) then l.map (fun p => if p.1 = k then (k, v) else p)
  else l ++ [(k, v)]

/-- `del dict[k]`. -/
def adel {α : Type} (l : List (String × α)) (k : String) : List (String × α) :=
  l.filter (fun p => ¬ p.1 = k)

/-- `SessionManager` state (session_manager.py 14-25). -/
structure SMState where
  gap_seconds : ℚ
  active_sessions : List (String × ℕ)
  last_activity : List (String × ℚ)
  db : DB

/-- `SessionManager._close_session` (session_manager.py 70-87): persist
the end time — the source passes no end time, so the database defaults
it to `now` — then drop the device from both dicts.  The printed
session stats do not change state and are dropped. -/
def close_session (st : SMState) (device_id : String) (now : ℚ) : SMState :=
  match alookup st.active_sessions device_id with
  | none => st
  | some sid =>
    { st with
       db := update_session_end_time st.db sid none now
       active_sessions := adel st.active_sessions device_id
       last_activity := adel st.last_activity device_id }

/-- `SessionManager.get_or_create_session` (session_manager.py 27-68). -/
def get_or_create_session (st : SMState) (device_id : String)
    (device_name : Option String) (now : ℚ) : ℕ × SMState :=
  let afterClose : SMState :=
    match alookup st.active_sessions device_id with
    | some _ =>
      let last_time := (alookup st.last_activity device_id).getD 0
      if st.gap_seconds < now - last_time then close_session st device_id now
      else st
    | none => st
  match alookup afterClose.active_sessions device_id with
  | some sid =>
    -- in-memory session survived the gap check: refresh and return
    (sid, { afterClose with
             last_activity := aset afterClose.last_activity device_id now })
  | none =>
    match get_active_session afterClose.db device_id afterClose.gap_seconds now with
    | some sid =>
      (sid, { afterClose with
               active_sessions := aset afterClose.active_sessions device_id sid
               last_activity := aset afterClose.last_activity device_id now })
    | none =>
      let (sid, db') := create_session afterClose.db device_id device_name now
      (sid, { afterClose with
               db := db'
               active_sessions := aset afterClose.active_sessions device_id sid
               last_activity := aset afterClose.last_activity device_id now })

/-- `SessionManager.check_inactive_sessions` (session_manager.py
98-104): the periodic sweep closing every device whose last activity is
older than `gap_seconds`. -/
def check_inactive_sessions (st : SMState) (now : ℚ) : SMState :=
  st.last_activity.foldl
    (fun acc p =>
      if acc.gap_seconds < now - p.2 then close_session acc p.1 now else acc)
    st

/-! ## Ingestion connection loop (`HRMDataLogger.connect_and_consume`,
data_logger.py 60-98)

Each loop iteration attempts one websocket connection; `true` in the
outcome list means the attempt connected — setting `retry_count = 0`
inside the `with` block — until the connection dropped, `false` means
the attempt failed outright.  Either way the iteration then falls
through to the unconditional `retry_count += 1` before the next
attempt, so a failure streak that follows a successful connection
enters its first failure with `retry_count = 1`.  `attemptsMade rc
outs` counts how many attempts the loop performs before exiting, given
the outcome of each successive attempt (the service keeps
`running = true` throughout; the `InvalidURI` immediate break is a
configuration error outside this model). -/

/-- `max_retries = 10` (data_logger.py 63). -/
def maxRetries : ℕ := 10

/-- `wait_time = min(2 ** retry_count, 30)` (data_logger.py 96). -/
def waitTime (retry_count : ℕ) : ℕ := min (2 ^ retry_count) 30

/-- Number of connection attempts the loop makes, given each attempt's
outcome.  A successful attempt zeroes `retry_count` while connected;
after the attempt ends (dropped or failed) the loop unconditionally
increments `retry_count` (data_logger.py 91) and exits once it exceeds
`maxRetries`. -/
def attemptsMade : ℕ → List Bool → ℕ
  | _, [] => 0
  | rc, success :: rest =>
    if maxRetries < (if success then 0 else rc) + 1 then 1
    else 1 + attemptsMade ((if success then 0 else rc) + 1) rest

/-! ## Aggregates (`HRMDatabase.compute_aggregates`, database.py 312-375)

The source loops `while current < end_time`, stepping by
`interval_seconds`, querying the bucket `[current, current + interval)`
restricted to rows of the session with a known heart rate, and
`INSERT OR REPLACE`-ing an aggregate row whenever the bucket is
non-empty.  The loop is embedded with an explicit fuel argument chosen
(in `compute_aggregates`) to dominate the iteration count whenever
`interval_seconds > 0`; for `interval_seconds ≤ 0` the source loop does
not terminate, so every theorem below assumes positivity. -/

/-- SQL `AVG` over the non-NULL entries of a column (NULL if none). -/
def sqlAvg (xs : List ℚ) : Option ℚ :=
  if xs.length = 0 then none else some (xs.sum / xs.length)

/-- SQL `MIN` over the non-NULL entries of a column (NULL if none). -/
def sqlMin (xs : List ℚ) : Option ℚ :=
  xs.foldl (fun acc x => match acc with
    | none => some x
    | some b => some (min b x)) none

/-- SQL `MAX` over the non-NULL entries of a column (NULL if none). -/
def sqlMax (xs : List ℚ) : Option ℚ :=
  xs.foldl (fun acc x => match acc with
    | none => some x
    | some b => some (max b x)) none

/-- The rows of the inner bucket query (database.py 337-352): session's
rows with `current ≤ timestamp < current + interval` and a non-NULL
heart rate. -/
def bucketRows (rows : List (ℕ × Rec)) (sid : ℕ) (current intervalQ : ℚ) :
    List Rec :=
  (rows.filter (fun m => m.1 = sid ∧ current ≤ m.2.timestamp ∧
    m.2.timestamp < current + intervalQ ∧ m.2.hr_bpm.isSome)).map (·.2)

/-- The aggregate row computed for one bucket (the SELECT of database.py
337-352; SQL aggregate functions skip NULLs column-wise). -/
def mkAggVal (b : List Rec) : AggVal :=
  { avg_hr := sqlAvg (b.filterMap (·.hr_bpm))
    min_hr := sqlMin (b.filterMap (·.hr_bpm))
    max_hr := sqlMax (b.filterMap (·.hr_bpm))
    avg_speed := sqlAvg (b.filterMap (·.speed_mps))
    max_speed := sqlMax (b.filterMap (·.speed_mps))
    avg_cadence := sqlAvg (b.filterMap (·.cadence_spm))
    total_distance := sqlMax (b.filterMap (·.total_distance_m))
    sample_count := b.length }

/-- The `(key, value)` pairs the interval loop upserts, in loop order
(one per non-empty bucket).  Structural recursion on the fuel. -/
def aggUpserts (rows : List (ℕ × Rec)) (sid : ℕ) (interval : ℤ) (endT : ℚ) :
    ℕ → ℚ → List (AggKey × AggVal)
  | 0, _ => []
  | fuel + 1, current =>
    if current < endT then
      let b := bucketRows rows sid current (interval : ℚ)
      let rest := aggUpserts rows sid interval endT fuel (current + (interval : ℚ))
      if 0 < b.length then
        (⟨sid, current, interval⟩, mkAggVal b) :: rest
      else rest
    else []

/-- Apply a list of upserts to the aggregates table in order
(`INSERT OR REPLACE` under the UNIQUE key = last writer wins). -/
def applyUpserts (us : List (AggKey × AggVal)) (m : AggKey → Option AggVal) :
    AggKey → Option AggVal :=
  us.foldl (fun acc u => Function.update acc u.1 (some u.2)) m

/-- `HRMDatabase.compute_aggregates` (database.py 312-375) as a state
transformer on the database: returns the bucket count together with the
updated database.  The source's `if not row or not row['start']` guard
is Python truthiness: it returns 0 both when the session has no rows
(`MIN` is NULL) and when the minimum timestamp is exactly `0.0`. -/
def compute_aggregates (db : DB) (session_id : ℕ) (interval_seconds : ℤ) :
    ℕ × DB :=
  let ts := (db.raw_metrics.filter (fun m => m.1 = session_id)).map (·.2.timestamp)
  match ts.min?, ts.max? with
  | some s, some e =>
    if s = 0 then (0, db)
    else
      let fuel := ((e - s) / (interval_seconds : ℚ)).ceil.toNat + 1
      let us := aggUpserts db.raw_metrics session_id interval_seconds e fuel s
      (us.length, { db with aggregates := applyUpserts us db.aggregates })
  | _, _ => (0, db)

/-- The last value a list of upserts writes to a key, if any. -/
def lastVal (us : List (AggKey × AggVal)) (k : AggKey) : Option AggVal :=
  match us with
  | [] => none
  | u :: rest =>
    match lastVal rest k with
    | some v => some v
    | none => if u.1 = k then some u.2 else none

/-! ## Concrete fixtures used by witnesses and counterexamples -/

/-- A record carrying only its timestamp. -/
def recT (t : ℚ) : Rec := { timestamp := t }

/-- An empty aggregates table. -/
def emptyAggs : AggKey → Option AggVal := fun _ => none

/-- A session-manager state with one in-memory session (id 0) for
device `"D"`, last active at time 100, gap 300 seconds. -/
def stOne : SMState :=
  { gap_seconds := 300
    active_sessions := [("D", 0)]
    last_activity := [("D", 100)]
    db := { sessions := [{ session_id := 0, start_time := 50, end_time := none
                           device_id := "D", device_name := none }]
            raw_metrics := []
            aggregates := emptyAggs
            next_id := 1 } }

/-- A database with one session's metrics at timestamps 10 and 40
(heart rates present). -/
def dbTwo : DB :=
  { sessions := []
    raw_metrics := [(1, { timestamp := 10, hr_bpm := some 70 }),
                    (1, { timestamp := 40, hr_bpm := some 80 })]
    aggregates := emptyAggs
    next_id := 2 }

/-- A database whose only session has all samples at one timestamp. -/
def dbFlat : DB :=
  { sessions := []
    raw_metrics := [(1, { timestamp := 7, hr_bpm := some 70 }),
                    (1, { timestamp := 7, hr_bpm := some 80 })]
    aggregates := emptyAggs
    next_id := 2 }

/-- A processor whose queue for session `"s"` is full (capacity 2). -/
def pFull : DataProcessor :=
  { buffer_size := 2
    buffers := fun s => if s = "s" then [recT 1, recT 2] else []
    last_timestamps := fun s => if s = "s" then some 2 else none }

/-! # Theorems

Helper lemmas come first, then one theorem (with witness or
counterexample where required) per claim.
-/

section Lemmas

/-- Looking a key up after deleting it yields nothing. -/
theorem alookup_adel_self {α : Type} (l : List (String × α)) (k : String) :
    alookup (adel l k) k = none := by
  simp only [alookup, adel, Option.map_eq_none', List.find?_eq_none]
  intro p hp
  rcases List.mem_filter.1 hp with ⟨-, h⟩
  simpa using h

/-- Applying a list of upserts reads back as the last write, falling
back to the original map. -/
theorem applyUpserts_apply (us : List (AggKey × AggVal))
    (m : AggKey → Option AggVal) (k : AggKey) :
    applyUpserts us m k =
      match lastVal us k with
      | some v => some v
      | none => m k := by
  induction us generalizing m with
  | nil => simp [applyUpserts, lastVal]
  | cons u rest ih =>
    show applyUpserts rest (Function.update m u.1 (some u.2)) k = _
    rw [ih]
    rcases h : lastVal rest k with _ | v
    · rcases hk : lastVal (u :: rest) k with _ | w
      · have : ¬ u.1 = k := by
          by_contra hc
          simp [lastVal, h, hc] at hk
        simp [Function.update, lastVal, h, this]
        intro hk'
        exact absurd hk'.symm this
      · have : u.1 = k ∧ u.2 = w := by
          by_cases hc : u.1 = k
          · refine ⟨hc, ?_⟩
            simp [lastVal, h, hc] at hk
            exact hk
          · simp [lastVal, h, hc] at hk
        rcases this with ⟨h1, h2⟩
        subst h1 h2
        simp [Function.update]
    · simp [lastVal, h]

/-- A key never written keeps no last value. -/
theorem lastVal_eq_none (us : List (AggKey × AggVal)) (k : AggKey)
    (h : ∀ u ∈ us, u.1 ≠ k) : lastVal us k = none := by
  induction us with
  | nil => rfl
  | cons u rest ih =>
    have h1 : u.1 ≠ k := h u (by simp)
    have h2 := ih (fun v hv => h v (by simp [hv]))
    simp [lastVal, h2, h1]

/-- When the database holds no open session row for the device, the
active-session query finds nothing. -/
theorem get_active_session_eq_none (db : DB) (device_id : String)
    (gap now : ℚ)
    (h : ∀ s ∈ db.sessions, s.device_id = device_id → s.end_time ≠ none) :
    get_active_session db device_id gap now = none := by
  unfold get_active_session
  have hfil : db.sessions.filter (activeCand db device_id (now - gap)) = [] := by
    rw [List.filter_eq_nil_iff]
    intro s hs
    simp only [activeCand, Bool.and_eq_true, decide_eq_true_eq, not_and]
    intro ⟨h1, h2⟩
    exact absurd h2 (h s hs h1)
  rw [hfil]
  rfl

/-- Replaying the same upserts is a no-op (last writer wins). -/
theorem applyUpserts_idem (us : List (AggKey × AggVal))
    (m : AggKey → Option AggVal) :
    applyUpserts us (applyUpserts us m) = applyUpserts us m := by
  funext k
  rw [applyUpserts_apply, applyUpserts_apply]
  rcases h : lastVal us k with _ | v
  · rfl
  · rfl

/-- The rejection branch of `add_to_buffer`. -/
theorem add_to_buffer_reject (p : DataProcessor) (sid : String) (d : Rec)
    (h : d.timestamp ≤ (p.last_timestamps sid).getD 0) :
    add_to_buffer p sid d = (false, p) := by
  unfold add_to_buffer
  rw [if_pos h]

/-- The acceptance branch of `add_to_buffer`. -/
theorem add_to_buffer_accept (p : DataProcessor) (sid : String) (d : Rec)
    (h : ¬ d.timestamp ≤ (p.last_timestamps sid).getD 0) :
    add_to_buffer p sid d =
      (decide (p.buffer_size ≤ (dequeAppend p.buffer_size (p.buffers sid) d).length),
       { p with
          last_timestamps := Function.update p.last_timestamps sid (some d.timestamp)
          buffers := Function.update p.buffers sid
            (dequeAppend p.buffer_size (p.buffers sid) d) }) := by
  unfold add_to_buffer
  rw [if_neg h]

/-- Appending to a capped deque yields the capped length. -/
theorem dequeAppend_length (n : ℕ) (q : List Rec) (x : Rec) :
    (dequeAppend n q x).length = min (q.length + 1) n := by
  simp only [dequeAppend, List.length_drop, List.length_append,
    List.length_singleton]
  omega

/-- A capped deque append keeps the last `n` of the extended list. -/
theorem dequeAppend_eq_lastN (n : ℕ) (q : List Rec) (x : Rec) :
    dequeAppend n q x = lastN n (q ++ [x]) := rfl

/-- `lastN` through `reverse`/`take`. -/
theorem lastN_reverse {α : Type} (n : ℕ) (l : List α) :
    (lastN n l).reverse = l.reverse.take n := by
  rw [lastN, List.reverse_drop]
  rcases le_or_lt n l.length with h | h
  · rw [Nat.sub_sub_self h]
  · have h1 : l.length - (l.length - n) = l.length := by omega
    rw [h1]
    rw [List.take_of_length_le (by simp), List.take_of_length_le (by simp; omega)]

/-- Truncating the first summand of an append before a `take` changes
nothing. -/
theorem take_append_take {α : Type} (n : ℕ) (c a : List α) :
    (c ++ a.take n).take n = (c ++ a).take n := by
  rw [List.take_append_eq_append_take, List.take_append_eq_append_take,
    List.take_take]
  congr 1
  rw [Nat.min_eq_left (Nat.sub_le n _)]

/-- Keeping only the last `n` before appending more does not change the
last `n` of the whole. -/
theorem lastN_append {α : Type} (n : ℕ) (a b : List α) :
    lastN n (lastN n a ++ b) = lastN n (a ++ b) := by
  apply List.reverse_injective
  rw [lastN_reverse, lastN_reverse, List.reverse_append, List.reverse_append,
    lastN_reverse, take_append_take]

/-- A list that fits entirely within the cap survives `lastN` whole. -/
theorem lastN_of_length_le {α : Type} {n : ℕ} {l : List α}
    (h : l.length ≤ n) : lastN n l = l := by
  rw [lastN, Nat.sub_eq_zero_of_le h, List.drop_zero]

end Lemmas

/-- **C3.** For every session and every sample whose timestamp is at
most the session's last-accepted-timestamp (0 when none has been
recorded), `add_to_buffer` returns `false` and leaves the processor —
in particular the session's pending queue and its watermark — entirely
unchanged: rejection is silent, not an error. -/
theorem C3_offer_reject_idempotent (p : DataProcessor) (sid : String) (d : Rec)
    (h : d.timestamp ≤ (p.last_timestamps sid).getD 0) :
    add_to_buffer p sid d = (false, p) := by
  unfold add_to_buffer
  rw [if_pos h]

/-- Witness for C3: a fresh processor (watermark defaults to 0) rejects
a sample with timestamp 0 and is unchanged. -/
theorem C3_witness :
    (recT 0).timestamp ≤ (((freshProcessor 3).last_timestamps "s").getD 0) ∧
      add_to_buffer (freshProcessor 3) "s" (recT 0) = (false, freshProcessor 3) := by
  refine ⟨by decide, C3_offer_reject_idempotent (freshProcessor 3) "s" (recT 0) (by decide)⟩

/-- **C5 counterexample.** The ingestion connection loop is *not*
retried an unbounded number of times: with 12 consecutive connection
failures available, only 11 attempts are made (`max_retries = 10` is
exceeded and the loop exits), although the claim demands an attempt for
every failure. -/
theorem C5_counterexample :
    attemptsMade 0 (List.replicate 12 false) = 11 ∧
      (List.replicate (α := Bool) 12 false).length = 12 := by
  constructor
  · rfl
  · simp

/-- **C5 amended.** While the service is running, the connection loop
retries a failed connection with exponential backoff capped at 30
seconds, but the retry count is bounded by `max_retries = 10`: from a
cold start the loop exits after 11 consecutive failed attempts
(whatever outcomes would follow); a successful connection zeroes the
counter while connected, but the unconditional increment after the
dropped connection makes a post-success failure streak start at 1, so
only 10 further consecutive failed attempts are made before the loop
exits. -/
theorem C5_amended_bounded_retries :
    (∀ outs : List Bool, attemptsMade 0 (List.replicate 11 false ++ outs) = 11) ∧
    (∀ outs : List Bool,
      attemptsMade 0 (List.replicate 10 false ++ true :: outs)
        = 11 + attemptsMade 1 outs) ∧
    (∀ outs : List Bool, attemptsMade 1 (List.replicate 10 false ++ outs) = 10) ∧
    (∀ rc : ℕ, waitTime rc ≤ 30) ∧
    waitTime 1 = 2 ∧ waitTime 4 = 16 ∧ waitTime 5 = 30 := by
  refine ⟨fun outs => ?_, fun outs => ?_, fun outs => ?_, fun rc => ?_, rfl, rfl, rfl⟩
  · simp [List.replicate_succ, attemptsMade, maxRetries]
  · simp [List.replicate_succ, attemptsMade, maxRetries]
    omega
  · simp [List.replicate_succ, attemptsMade, maxRetries]
  · exact min_le_right _ _

/-- **C8.** For every sample record (which always carries its
timestamp), `validate_data` returns no error exactly when each present
optional field lies in its inclusive range — heart rate in [30, 250],
battery in [0, 100], speed in [0, 20], cadence in [0, 300] — an absent
field imposing no constraint; and on the stated boundary inputs
heart_rate 29 and 251 are rejected while 30 and 250 are accepted.  The
embedding of `validate_data` consumes the record and produces only the
error option, so the sample itself is never mutated. -/
theorem C8_validator_ranges :
    (∀ d : Rec,
      validate_data d = none ↔
        (∀ hr ∈ d.hr_bpm, 30 ≤ hr ∧ hr ≤ 250) ∧
        (∀ b ∈ d.battery_pct, 0 ≤ b ∧ b ≤ 100) ∧
        (∀ s ∈ d.speed_mps, 0 ≤ s ∧ s ≤ 20) ∧
        (∀ c ∈ d.cadence_spm, 0 ≤ c ∧ c ≤ 300)) ∧
    (validate_data { timestamp := 1, hr_bpm := some 29 }).isSome = true ∧
    validate_data { timestamp := 1, hr_bpm := some 30 } = none ∧
    validate_data { timestamp := 1, hr_bpm := some 250 } = none ∧
    (validate_data { timestamp := 1, hr_bpm := some 251 }).isSome = true := by
  refine ⟨fun d => ?_, by decide, by decide, by decide, by decide⟩
  unfold validate_data
  split_ifs with h1 h2 h3 h4 <;> simp_all

/-- Witness for C8: a record with in-range heart rate and speed (other
fields absent) validates cleanly. -/
theorem C8_witness :
    validate_data { timestamp := 1, hr_bpm := some 100, speed_mps := some 3 }
      = none :=
  (C8_validator_ranges.1 _).2 (by decide)

/-- The source's index loop over successive pairs equals the spec's
`zipWith` of the list against its tail. -/
theorem range_map_getD_eq_zipWith (f : ℚ → ℚ → ℚ) :
    ∀ l : List ℚ, (List.range (l.length - 1)).map
      (fun i => f (l.getD i 0) (l.getD (i + 1) 0)) = List.zipWith f l l.tail := by
  intro l
  induction l with
  | nil => simp
  | cons a t ih =>
    rcases t with _ | ⟨b, t'⟩
    · simp
    · have hlen : (a :: b :: t').length - 1 = t'.length + 1 := by simp
      rw [hlen, List.range_succ_eq_map, List.map_cons, List.map_map]
      have hcomp : ((fun i => f ((a :: b :: t').getD i 0) ((a :: b :: t').getD (i + 1) 0))
            ∘ (· + 1))
          = fun i => f ((b :: t').getD i 0) ((b :: t').getD (i + 1) 0) := by
        funext i
        simp [List.getD_cons_succ]
      rw [hcomp]
      have h2 : (List.range t'.length).map
          (fun i => f ((b :: t').getD i 0) ((b :: t').getD (i + 1) 0))
          = List.zipWith f (b :: t') t' := by
        have := ih
        simpa using this
      rw [h2]
      simp [List.getD]

/-- The source's RMSSD radicand agrees with the spec's formula. -/
theorem calculate_rmssd_sq_eq_spec (rr : List ℚ) :
    calculate_rmssd_sq rr = specMeanSqDiffMs rr := by
  unfold calculate_rmssd_sq specMeanSqDiffMs
  rcases rr with _ | ⟨a, t⟩
  · simp
  · rcases t with _ | ⟨b, t'⟩
    · simp
    · have hlen : ¬ (a :: b :: t').length < 2 := by simp
      rw [if_neg hlen]
      rw [range_map_getD_eq_zipWith (fun x y => ((y - x) * 1000) ^ 2) (a :: b :: t')]

/-- **C7.** For every decoded frame: when at least two RR intervals are
present the decoder attaches the HRV value — the real square root of
the stored radicand, which equals the mean of the squared successive
first differences of the RR intervals in milliseconds (the spec's
RMSSD); when fewer than two are present no HRV field appears (absent,
not zero).  On the spec's examples the RMSSD of [1, 1, 1] seconds is
0 ms and of [0.8, 1] seconds is 200 ms. -/
theorem C7_hrv_rmssd (d : BleData) (now : ℚ) :
    (2 ≤ d.rr_s.length →
      (process_ble_data d now).hrv_rmssd_sq = some (specMeanSqDiffMs d.rr_s)) ∧
    (d.rr_s.length < 2 → (process_ble_data d now).hrv_rmssd_sq = none) ∧
    Real.sqrt ((specMeanSqDiffMs [1, 1, 1] : ℚ) : ℝ) = 0 ∧
    Real.sqrt ((specMeanSqDiffMs [4/5, 1] : ℚ) : ℝ) = 200 := by
  refine ⟨fun h => ?_, fun h => ?_, ?_, ?_⟩
  · have h0 : ¬ d.rr_s.length = 0 := by omega
    have h1 : 1 < d.rr_s.length := by omega
    simp [process_ble_data, h0, h1, calculate_rmssd_sq_eq_spec]
  · rcases hl : d.rr_s.length with _ | n
    · simp [process_ble_data, hl]
    · have h0 : ¬ d.rr_s.length = 0 := by omega
      have h1 : ¬ 1 < d.rr_s.length := by omega
      simp [process_ble_data, h0, h1]
  · have : (specMeanSqDiffMs [1, 1, 1] : ℚ) = 0 := by
      norm_num [specMeanSqDiffMs]
    rw [this]
    simp [Real.sqrt_zero]
  · have : ((specMeanSqDiffMs [4/5, 1] : ℚ) : ℝ) = 200 ^ 2 := by
      norm_num [specMeanSqDiffMs]
    rw [this, Real.sqrt_sq (by norm_num : (0:ℝ) ≤ 200)]

/-- Witness for C7: a two-interval frame carries the HRV radicand, a
one-interval frame carries none. -/
theorem C7_witness :
    (process_ble_data { rr_s := [4/5, 1] } 0).hrv_rmssd_sq
        = some (specMeanSqDiffMs [4/5, 1]) ∧
      (process_ble_data { rr_s := [1] } 0).hrv_rmssd_sq = none :=
  ⟨(C7_hrv_rmssd { rr_s := [4/5, 1] } 0).1 (by decide),
   (C7_hrv_rmssd { rr_s := [1] } 0).2.1 (by decide)⟩

/-- **C2 counterexample.** Closing a session after an exceeded gap does
*not* persist the device's last known activity time: in a state whose
device `"D"` was last active at time 100 (gap 300), resolving at time
500 closes session 0 with `end_time = 500` — the wall clock at the
moment of closing — although 500 ≠ 100.  (`_close_session` passes no
end time, and `update_session_end_time` defaults to `time.time()`.) -/
theorem C2_counterexample :
    alookup stOne.last_activity "D" = some 100 ∧
    stOne.gap_seconds < 500 - 100 ∧
    (get_or_create_session stOne "D" none 500).2.db.sessions.map
        (fun r => (r.session_id, r.end_time)) = [(0, some 500), (1, none)] ∧
    (500 : ℚ) ≠ 100 := by
  refine ⟨rfl, by norm_num [stOne], ?_, by norm_num⟩
  norm_num [get_or_create_session, stOne, close_session, update_session_end_time,
    get_active_session, activeCand, create_session, alookup, adel, aset, emptyAggs]

/-- **C2 amended.** When the session manager closes a session because
the inactivity gap was exceeded, the `end_time` persisted for that
session equals the wall-clock time at the moment of closing (the `now`
of the closing call), not the device's last known activity time: this
holds for the closing primitive `close_session` (used by both the lazy
resolve path and the periodic sweep) and end-to-end through a resolve
that trips the gap check. -/
theorem C2_amended_close_uses_now (st : SMState) (dev : String)
    (name : Option String) (now : ℚ) (sid : ℕ)
    (hact : alookup st.active_sessions dev = some sid) :
    (∀ r ∈ (close_session st dev now).db.sessions,
        r.session_id = sid → r.end_time = some now) ∧
    (st.gap_seconds < now - (alookup st.last_activity dev).getD 0 →
      sid < st.db.next_id →
      ∀ r ∈ (get_or_create_session st dev name now).2.db.sessions,
        r.session_id = sid → r.end_time = some now) := by
  have hclose : close_session st dev now =
      { st with
         db := update_session_end_time st.db sid none now
         active_sessions := adel st.active_sessions dev
         last_activity := adel st.last_activity dev } := by
    unfold close_session
    rw [hact]
  have parta : ∀ r ∈ (close_session st dev now).db.sessions,
      r.session_id = sid → r.end_time = some now := by
    rw [hclose]
    intro r hr hid
    simp only [update_session_end_time] at hr
    obtain ⟨r0, h0, rfl⟩ := List.mem_map.1 hr
    by_cases hc : r0.session_id = sid
    · simp [hc]
    · rw [if_neg hc] at hid ⊢
      exact absurd hid hc
  refine ⟨parta, fun hgap hfresh => ?_⟩
  have hnone : alookup (close_session st dev now).active_sessions dev = none := by
    rw [hclose]
    exact alookup_adel_self _ _
  have hred : get_or_create_session st dev name now
      = (match get_active_session (close_session st dev now).db dev
             (close_session st dev now).gap_seconds now with
         | some sid => (sid, { close_session st dev now with
             active_sessions := aset (close_session st dev now).active_sessions dev sid
             last_activity := aset (close_session st dev now).last_activity dev now })
         | none =>
           ((create_session (close_session st dev now).db dev name now).1,
            { close_session st dev now with
               db := (create_session (close_session st dev now).db dev name now).2
               active_sessions := aset (close_session st dev now).active_sessions dev
                 (create_session (close_session st dev now).db dev name now).1
               last_activity := aset (close_session st dev now).last_activity dev now })) := by
    unfold get_or_create_session
    rw [hact]
    dsimp only
    rw [if_pos hgap, hnone]
  intro r hr hid
  rw [hred] at hr
  rcases hga : get_active_session (close_session st dev now).db dev
      (close_session st dev now).gap_seconds now with _ | s
  · rw [hga] at hr
    simp only [create_session] at hr
    rcases List.mem_append.1 hr with hmem | hmem
    · exact parta r hmem hid
    · simp only [List.mem_singleton] at hmem
      subst hmem
      simp only at hid
      have hnid : (close_session st dev now).db.next_id = st.db.next_id := by
        rw [hclose]
        rfl
      rw [hnid] at hid
      omega
  · rw [hga] at hr
    exact parta r hr hid

/-- Witness for C2 amended: in the concrete state `stOne` (last
activity 100, gap 300), both the closing primitive at time 500 and the
gap-tripping resolve at time 500 persist `end_time = 500`. -/
theorem C2_witness :
    (∀ r ∈ (close_session stOne "D" 500).db.sessions,
        r.session_id = 0 → r.end_time = some 500) ∧
    (∀ r ∈ (get_or_create_session stOne "D" none 500).2.db.sessions,
        r.session_id = 0 → r.end_time = some 500) := by
  have h := C2_amended_close_uses_now stOne "D" none 500 0 (by rfl)
  exact ⟨h.1, h.2 (by norm_num [stOne, alookup]) (by norm_num [stOne])⟩

/-- **C6.** Session resolution is stable: with an in-memory session and
at most `gap_seconds` elapsed since the recorded activity, a repeated
resolve returns the same session id and changes nothing but the
device's activity refresh (no session created or closed); a fresh id is
returned only when the elapsed time strictly exceeds the gap (granted
the reachable-state invariants that the in-memory session is the
device's only open session row and that its id predates the id
counter). -/
theorem C6_resolution_stable (st : SMState) (dev : String) (name : Option String)
    (now : ℚ) (sid : ℕ)
    (hact : alookup st.active_sessions dev = some sid) :
    (now - (alookup st.last_activity dev).getD 0 ≤ st.gap_seconds →
      get_or_create_session st dev name now
        = (sid, { st with last_activity := aset st.last_activity dev now })) ∧
    (st.gap_seconds < now - (alookup st.last_activity dev).getD 0 →
      (∀ r ∈ st.db.sessions, r.device_id = dev → r.end_time = none →
        r.session_id = sid) →
      sid < st.db.next_id →
      (get_or_create_session st dev name now).1 = st.db.next_id ∧
        (get_or_create_session st dev name now).1 ≠ sid) := by
  have hclose : close_session st dev now =
      { st with
         db := update_session_end_time st.db sid none now
         active_sessions := adel st.active_sessions dev
         last_activity := adel st.last_activity dev } := by
    unfold close_session
    rw [hact]
  constructor
  · intro h
    have hng : ¬ st.gap_seconds < now - (alookup st.last_activity dev).getD 0 :=
      not_lt.2 h
    unfold get_or_create_session
    rw [hact]
    dsimp only
    rw [if_neg hng, hact]
  · intro hgap hopen hfresh
    have hnone : alookup (close_session st dev now).active_sessions dev = none := by
      rw [hclose]
      exact alookup_adel_self _ _
    have hga : get_active_session (close_session st dev now).db dev
        (close_session st dev now).gap_seconds now = none := by
      apply get_active_session_eq_none
      rw [hclose]
      intro s hs hdev
      simp only [update_session_end_time] at hs
      obtain ⟨r0, h0, rfl⟩ := List.mem_map.1 hs
      by_cases hc : r0.session_id = sid
      · rw [if_pos hc]
        simp
      · rw [if_neg hc] at hdev ⊢
        intro hend
        exact absurd (hopen r0 h0 hdev hend) hc
    have hred : get_or_create_session st dev name now
        = ((create_session (close_session st dev now).db dev name now).1,
           { close_session st dev now with
              db := (create_session (close_session st dev now).db dev name now).2
              active_sessions := aset (close_session st dev now).active_sessions dev
                (create_session (close_session st dev now).db dev name now).1
              last_activity := aset (close_session st dev now).last_activity dev now }) := by
      unfold get_or_create_session
      rw [hact]
      dsimp only
      rw [if_pos hgap, hnone, hga]
    rw [hred]
    have hnid : (create_session (close_session st dev now).db dev name now).1
        = st.db.next_id := by
      rw [hclose]
      rfl
    rw [hnid]
    exact ⟨rfl, by omega⟩

/-- Witness for C6: in `stOne` (last activity 100, gap 300), resolving
at time 350 returns session 0 again with only the activity refreshed,
while resolving at time 500 returns the fresh id 1 ≠ 0. -/
theorem C6_witness :
    get_or_create_session stOne "D" none 350
        = (0, { stOne with last_activity := aset stOne.last_activity "D" 350 }) ∧
      (get_or_create_session stOne "D" none 500).1 = stOne.db.next_id ∧
      (get_or_create_session stOne "D" none 500).1 ≠ 0 := by
  refine ⟨(C6_resolution_stable stOne "D" none 350 0 (by rfl)).1
    (by norm_num [stOne, alookup]), ?_⟩
  exact (C6_resolution_stable stOne "D" none 500 0 (by rfl)).2
    (by norm_num [stOne, alookup]) (by decide) (by norm_num [stOne])

/-- **C9.** The per-session pending queue never exceeds `buffer_size`
(the bound is preserved by every offer, for every session), and an
accepted sample arriving while the queue already holds exactly
`buffer_size` samples silently evicts the oldest pending sample — the
new queue is the old one minus its head plus the new sample, still at
capacity, so the evicted sample can no longer be drained or persisted,
with no error or counter recording the loss. -/
theorem C9_deque_eviction (p : DataProcessor) (sid sid' : String) (d : Rec) :
    ((p.buffers sid').length ≤ p.buffer_size →
      ((add_to_buffer p sid d).2.buffers sid').length ≤ p.buffer_size) ∧
    ((p.buffers sid).length = p.buffer_size → 0 < p.buffer_size →
      (p.last_timestamps sid).getD 0 < d.timestamp →
      (add_to_buffer p sid d).2.buffers sid = (p.buffers sid).drop 1 ++ [d] ∧
        ((add_to_buffer p sid d).2.buffers sid).length = p.buffer_size) := by
  constructor
  · intro hb
    by_cases h : d.timestamp ≤ (p.last_timestamps sid).getD 0
    · rw [add_to_buffer_reject p sid d h]
      exact hb
    · rw [add_to_buffer_accept p sid d h]
      by_cases hs : sid' = sid
      · subst hs
        show (Function.update p.buffers sid' _ sid').length ≤ _
        rw [Function.update_same, dequeAppend_length]
        omega
      · show (Function.update p.buffers sid _ sid').length ≤ _
        rw [Function.update_noteq hs]
        exact hb
  · intro hfull hpos hts
    have h : ¬ d.timestamp ≤ (p.last_timestamps sid).getD 0 := not_le.2 hts
    rw [add_to_buffer_accept p sid d h]
    show Function.update p.buffers sid _ sid = _ ∧
      (Function.update p.buffers sid _ sid).length = _
    rw [Function.update_same]
    have hdrop : dequeAppend p.buffer_size (p.buffers sid) d
        = (p.buffers sid).drop 1 ++ [d] := by
      show (p.buffers sid ++ [d]).drop ((p.buffers sid ++ [d]).length - p.buffer_size)
          = _
      have hlen : (p.buffers sid ++ [d]).length - p.buffer_size = 1 := by
        simp [hfull]
      rw [hlen, List.drop_append_of_le_length (by omega)]
    refine ⟨hdrop, ?_⟩
    rw [hdrop]
    simp
    omega

/-- Witness for C9: a processor whose session `"s"` queue is full at
capacity 2 (timestamps 1, 2, watermark 2) accepts a sample at time 3 by
evicting the oldest sample. -/
theorem C9_witness :
    (add_to_buffer pFull "s" (recT 3)).2.buffers "s" = [recT 2, recT 3] ∧
      ((add_to_buffer pFull "s" (recT 3)).2.buffers "s").length = pFull.buffer_size := by
  have h := (C9_deque_eviction pFull "s" "s" (recT 3)).2
    (by norm_num [pFull]) (by norm_num [pFull]) (by norm_num [pFull, recT, alookup])
  rcases h with ⟨h1, h2⟩
  constructor
  · rw [h1]
    norm_num [pFull]
  · exact h2

/-- Run lemma for `offerAll` under strictly increasing timestamps: from
any state whose queue is within capacity and whose watermark is below
every offered timestamp, each offer is accepted, the k-th offer reports
ready-to-flush exactly when the (capped) queue has reached capacity,
the queue ends as the last `buffer_size` offered-plus-pending samples,
and the watermark ends at the last offered timestamp. -/
theorem offerAll_strictMono (sid : String) :
    ∀ (ds : List Rec) (p : DataProcessor),
      ((ds.map (·.timestamp)).Pairwise (· < ·)) →
      (∀ d ∈ ds, (p.last_timestamps sid).getD 0 < d.timestamp) →
      (p.buffers sid).length ≤ p.buffer_size →
      (offerAll p sid ds).1 = (List.range ds.length).map
          (fun k => decide (p.buffer_size ≤ (p.buffers sid).length + k + 1)) ∧
      (offerAll p sid ds).2.buffers sid
          = lastN p.buffer_size (p.buffers sid ++ ds) ∧
      (offerAll p sid ds).2.last_timestamps sid =
        (match (ds.map (·.timestamp)).getLast? with
         | some t => some t
         | none => p.last_timestamps sid) := by
  intro ds
  induction ds with
  | nil =>
    intro p h1 h2 h3
    refine ⟨rfl, ?_, rfl⟩
    show p.buffers sid = lastN p.buffer_size (p.buffers sid ++ [])
    rw [List.append_nil, lastN_of_length_le h3]
  | cons d rest ih =>
    intro p h1 h2 h3
    have hacc : ¬ d.timestamp ≤ (p.last_timestamps sid).getD 0 :=
      not_le.2 (h2 d (List.mem_cons_self d rest))
    simp only [offerAll]
    rw [add_to_buffer_accept p sid d hacc]
    have hupb : (Function.update p.buffers sid
        (dequeAppend p.buffer_size (p.buffers sid) d)) sid
        = dequeAppend p.buffer_size (p.buffers sid) d :=
      Function.update_same sid _ p.buffers
    have hupl : (Function.update p.last_timestamps sid (some d.timestamp)) sid
        = some d.timestamp :=
      Function.update_same sid _ p.last_timestamps
    obtain ⟨ih1, ih2, ih3⟩ := ih
      { p with
         last_timestamps := Function.update p.last_timestamps sid (some d.timestamp)
         buffers := Function.update p.buffers sid
           (dequeAppend p.buffer_size (p.buffers sid) d) }
      (List.Pairwise.of_cons h1)
      (by
        intro d' hd'
        show ((Function.update p.last_timestamps sid (some d.timestamp)) sid).getD 0
            < d'.timestamp
        rw [hupl, Option.getD_some]
        exact (List.pairwise_cons.1 h1).1 _ (List.mem_map_of_mem _ hd'))
      (by
        show ((Function.update p.buffers sid
            (dequeAppend p.buffer_size (p.buffers sid) d)) sid).length
            ≤ p.buffer_size
        rw [hupb, dequeAppend_length]
        omega)
    refine ⟨?_, ?_, ?_⟩
    · show _ :: (offerAll _ sid rest).1 = _
      rw [ih1]
      dsimp only
      rw [List.length_cons, List.range_succ_eq_map, List.map_cons, List.map_map]
      congr 1
      · rw [decide_eq_decide, dequeAppend_length]
        omega
      · apply List.map_congr_left
        intro k _
        simp only [Function.comp_apply]
        rw [decide_eq_decide, hupb, dequeAppend_length]
        omega
    · show (offerAll _ sid rest).2.buffers sid = _
      rw [ih2]
      dsimp only
      rw [hupb, dequeAppend_eq_lastN, lastN_append, List.append_assoc,
        List.singleton_append]
    · show (offerAll _ sid rest).2.last_timestamps sid = _
      rw [ih3]
      rcases rest with _ | ⟨e, rest'⟩
      · simp only [List.map_nil, List.getLast?_nil, List.map_cons]
        rw [hupl]
        rfl
      · have hne : ((e :: rest').map (·.timestamp)).getLast?.isSome = true :=
          List.getLast?_isSome.2 (by simp)
        obtain ⟨t, ht⟩ := Option.isSome_iff_exists.1 hne
        rw [List.map_cons] at ht
        simp only [List.map_cons]
        rw [List.getLast?_cons_cons, ht]

/-- **C1 counterexample.** From a fresh processor, the strictly
increasing one-sample sequence whose first timestamp is 0 is *not*
accepted: the offer returns `false` and leaves the processor — queue
and watermark — unchanged, because the missing watermark defaults to 0
and the dedup test `timestamp <= last_ts` fires. -/
theorem C1_counterexample :
    ([recT 0].map (·.timestamp)).Pairwise (· < ·) ∧
      (recT 0).timestamp = 0 ∧
      offerAll (freshProcessor 2) "s" [recT 0] = ([false], freshProcessor 2) := by
  refine ⟨by simp, rfl, ?_⟩
  have h := add_to_buffer_reject (freshProcessor 2) "s" (recT 0)
    (by norm_num [freshProcessor, recT])
  simp only [offerAll, h]

/-- **C1 amended.** For every session starting from fresh dedup state
and every sequence of samples with strictly increasing *strictly
positive* timestamps (the initial watermark defaults to 0, so a first
timestamp of 0 is rejected), offering the whole sequence with no
intervening drain accepts every sample — the queue ends as the last
`buffer_size` samples of the sequence and the watermark as the last
timestamp — and the k-th offer reports ready-to-flush exactly when the
queue length has reached `buffer_size`, i.e. from the
`buffer_size`-th offer onward. -/
theorem C1_amended_offer_accepts (bs : ℕ) (sid : String) (ds : List Rec)
    (h1 : (ds.map (·.timestamp)).Pairwise (· < ·))
    (h2 : ∀ d ∈ ds, 0 < d.timestamp) :
    (offerAll (freshProcessor bs) sid ds).1
        = (List.range ds.length).map (fun k => decide (bs ≤ k + 1)) ∧
    (offerAll (freshProcessor bs) sid ds).2.buffers sid = lastN bs ds ∧
    (offerAll (freshProcessor bs) sid ds).2.last_timestamps sid
        = (ds.map (·.timestamp)).getLast? := by
  obtain ⟨ih1, ih2, ih3⟩ := offerAll_strictMono sid ds (freshProcessor bs) h1
    (fun d hd => h2 d hd) (by simp [freshProcessor])
  refine ⟨?_, ?_, ?_⟩
  · rw [ih1]
    apply List.map_congr_left
    intro k _
    rw [decide_eq_decide]
    show bs ≤ ([] : List Rec).length + k + 1 ↔ _
    simp
  · rw [ih2]
    show lastN bs ([] ++ ds) = lastN bs ds
    rw [List.nil_append]
  · rw [ih3]
    rcases hg : (ds.map (·.timestamp)).getLast? with _ | t
    · rw [hg]
      rfl
    · rw [hg]

/-- Witness for C1 amended: capacity 2, samples at times 1, 2, 3 — all
accepted, ready-to-flush signalled on the 2nd and 3rd offers, queue
ends with the last two samples, watermark at 3. -/
theorem C1_witness :
    (offerAll (freshProcessor 2) "s" [recT 1, recT 2, recT 3]).1
        = [false, true, true] ∧
      (offerAll (freshProcessor 2) "s" [recT 1, recT 2, recT 3]).2.buffers "s"
        = [recT 2, recT 3] ∧
      (offerAll (freshProcessor 2) "s" [recT 1, recT 2, recT 3]).2.last_timestamps "s"
        = some 3 := by
  obtain ⟨h1, h2, h3⟩ := C1_amended_offer_accepts 2 "s" [recT 1, recT 2, recT 3]
    (by norm_num [recT, List.pairwise_cons])
    (by
      intro d hd
      simp only [List.mem_cons, List.not_mem_nil, or_false] at hd
      rcases hd with rfl | rfl | rfl <;> norm_num [recT])
  refine ⟨?_, ?_, ?_⟩
  · rw [h1]
    rfl
  · rw [h2]
    rfl
  · rw [h3]
    rfl

/-- The interval loop emits nothing once the cursor has reached the end
of the session's time range. -/
theorem aggUpserts_stop (rows : List (ℕ × Rec)) (sid : ℕ) (I : ℤ) (endT : ℚ)
    (fuel : ℕ) (cur : ℚ) (h : ¬ cur < endT) :
    aggUpserts rows sid I endT fuel cur = [] := by
  cases fuel with
  | zero => rfl
  | succ n =>
    unfold aggUpserts
    rw [if_neg h]

/-- Every key the interval loop upserts has a bucket start lying on the
grid `cur + j * I` and strictly before the end of the range. -/
theorem aggUpserts_key_mem (rows : List (ℕ × Rec)) (sid : ℕ) (I : ℤ)
    (endT : ℚ) :
    ∀ (fuel : ℕ) (cur : ℚ) (kv : AggKey × AggVal),
      kv ∈ aggUpserts rows sid I endT fuel cur →
      ∃ j : ℕ, kv.1.interval_start = cur + j * (I : ℚ) ∧
        kv.1.interval_start < endT := by
  intro fuel
  induction fuel with
  | zero =>
    intro cur kv h
    simp [aggUpserts] at h
  | succ n ih =>
    intro cur kv h
    unfold aggUpserts at h
    by_cases hc : cur < endT
    · rw [if_pos hc] at h
      dsimp only at h
      by_cases hb : 0 < (bucketRows rows sid cur (I : ℚ)).length
      · rw [if_pos hb] at h
        rcases List.mem_cons.1 h with rfl | hmem
        · exact ⟨0, by simp, hc⟩
        · obtain ⟨j, hj, hlt⟩ := ih (cur + (I : ℚ)) kv hmem
          refine ⟨j + 1, ?_, hlt⟩
          rw [hj]
          push_cast
          ring
      · rw [if_neg hb] at h
        obtain ⟨j, hj, hlt⟩ := ih (cur + (I : ℚ)) kv h
        refine ⟨j + 1, ?_, hlt⟩
        rw [hj]
        push_cast
        ring
    · rw [if_neg hc] at h
      simp at h

/-- A key none of the upserts writes is untouched. -/
theorem applyUpserts_not_mem (us : List (AggKey × AggVal))
    (m : AggKey → Option AggVal) (k : AggKey)
    (h : k ∉ us.map (·.1)) : applyUpserts us m k = m k := by
  rw [applyUpserts_apply, lastVal_eq_none us k]
  intro u hu heq
  exact h (heq ▸ List.mem_map_of_mem _ hu)

/-- **C4.** `compute_aggregates` is idempotent: with the session's
stored samples unchanged, an immediately repeated call (same interval
width) returns the same bucket count and leaves the aggregates table —
a map keyed by `(session_id, interval_start, interval_seconds)`, so
duplicate rows are impossible — exactly as the first call left it. -/
theorem C4_compute_aggregates_idempotent (db : DB) (sid : ℕ) (I : ℤ)
    (hI : 0 < I) :
    compute_aggregates (compute_aggregates db sid I).2 sid I
      = compute_aggregates db sid I := by
  rcases hmin : ((db.raw_metrics.filter (fun m => m.1 = sid)).map
      (·.2.timestamp)).min? with _ | s
  · have h1 : compute_aggregates db sid I = (0, db) := by
      unfold compute_aggregates
      dsimp only
      rw [hmin]
    rw [h1]
    exact h1
  · rcases hmax : ((db.raw_metrics.filter (fun m => m.1 = sid)).map
        (·.2.timestamp)).max? with _ | e
    · exfalso
      rw [List.max?_eq_none_iff.1 hmax] at hmin
      simp at hmin
    · by_cases hs0 : s = 0
      · have h1 : compute_aggregates db sid I = (0, db) := by
          unfold compute_aggregates
          dsimp only
          rw [hmin, hmax]
          dsimp only
          rw [if_pos hs0]
        rw [h1]
        exact h1
      · have h1 : compute_aggregates db sid I
            = ((aggUpserts db.raw_metrics sid I e
                  (((e - s) / (I : ℚ)).ceil.toNat + 1) s).length,
               { db with aggregates := (applyUpserts
                   (aggUpserts db.raw_metrics sid I e
                     (((e - s) / (I : ℚ)).ceil.toNat + 1) s)
                   db.aggregates) }) := by
          unfold compute_aggregates
          dsimp only
          rw [hmin, hmax]
          dsimp only
          rw [if_neg hs0]
        rw [h1]
        generalize hus : (aggUpserts db.raw_metrics sid I e
            (((e - s) / (I : ℚ)).ceil.toNat + 1) s) = us
        unfold compute_aggregates
        dsimp only
        rw [hmin, hmax]
        dsimp only
        rw [if_neg hs0, hus, applyUpserts_idem]

/-- Witness for C4: repeating the aggregate computation on the
two-sample database with 30-second buckets reproduces the first call's
result exactly. -/
theorem C4_witness :
    compute_aggregates (compute_aggregates dbTwo 1 30).2 1 30
      = compute_aggregates dbTwo 1 30 :=
  C4_compute_aggregates_idempotent dbTwo 1 30 (by decide)

/-- **C10.** The interval loop of `compute_aggregates` runs only while
the bucket start (walking the grid from the session's minimum
timestamp) is strictly below the session's maximum timestamp: a session
whose samples all share one timestamp yields zero aggregate rows and an
untouched aggregates table even when heart rates are known, and when
the maximum timestamp falls exactly on a bucket start (minimum plus a
whole number of interval widths) every bucket key that would contain
the maximum — `interval_start ≤ max < interval_start + interval` — is
left unwritten, so the sample at the maximum timestamp enters no
aggregate. -/
theorem C10_max_timestamp_excluded :
    (∀ (db : DB) (sid : ℕ) (I : ℤ) (t : ℚ),
      (∀ m ∈ db.raw_metrics.filter (fun m => m.1 = sid), m.2.timestamp = t) →
      compute_aggregates db sid I = (0, db)) ∧
    (∀ (db : DB) (sid : ℕ) (I : ℤ) (s e : ℚ) (k : ℕ),
      0 < I →
      ((db.raw_metrics.filter (fun m => m.1 = sid)).map (·.2.timestamp)).min?
        = some s →
      ((db.raw_metrics.filter (fun m => m.1 = sid)).map (·.2.timestamp)).max?
        = some e →
      e = s + k * (I : ℚ) →
      ∀ key : AggKey, key.interval_start ≤ e →
        e < key.interval_start + (I : ℚ) →
        (compute_aggregates db sid I).2.aggregates key = db.aggregates key) := by
  constructor
  · intro db sid I t hall
    rcases hmin : ((db.raw_metrics.filter (fun m => m.1 = sid)).map
        (·.2.timestamp)).min? with _ | s
    · unfold compute_aggregates
      dsimp only
      rw [hmin]
    · rcases hmax : ((db.raw_metrics.filter (fun m => m.1 = sid)).map
          (·.2.timestamp)).max? with _ | e
      · exfalso
        rw [List.max?_eq_none_iff.1 hmax] at hmin
        simp at hmin
      · have hs : s = t := by
          have hmem := List.min?_mem (fun a b => min_choice a b) hmin
          obtain ⟨m, hm, hmt⟩ := List.mem_map.1 hmem
          rw [← hmt]
          exact hall m hm
        have he : e = t := by
          have hmem := List.max?_mem (fun a b => max_choice a b) hmax
          obtain ⟨m, hm, hmt⟩ := List.mem_map.1 hmem
          rw [← hmt]
          exact hall m hm
        unfold compute_aggregates
        dsimp only
        rw [hmin, hmax]
        dsimp only
        by_cases hs0 : s = 0
        · rw [if_pos hs0]
        · rw [if_neg hs0]
          rw [aggUpserts_stop db.raw_metrics sid I e _ s (by rw [hs, he]; simp)]
          rfl
  · intro db sid I s e k hI hmin hmax hk key h1 h2
    unfold compute_aggregates
    dsimp only
    rw [hmin, hmax]
    dsimp only
    by_cases hs0 : s = 0
    · rw [if_pos hs0]
    · rw [if_neg hs0]
      dsimp only
      apply applyUpserts_not_mem
      intro hmem
      obtain ⟨kv, hkv, hkey⟩ := List.mem_map.1 hmem
      obtain ⟨j, hj, hlt⟩ := aggUpserts_key_mem db.raw_metrics sid I e _ s kv hkv
      rw [hkey] at hj hlt
      have hIQ : (0 : ℚ) < (I : ℚ) := by exact_mod_cast hI
      have hjk : (j : ℚ) * (I : ℚ) < (k : ℚ) * (I : ℚ) := by
        rw [hj, hk] at hlt
        linarith
      have hjk' : j < k := by
        have := (mul_lt_mul_right hIQ).1 hjk
        exact_mod_cast this
      have hstep : key.interval_start + (I : ℚ) ≤ e := by
        rw [hj, hk]
        have hj1 : ((j : ℚ) + 1) ≤ (k : ℚ) := by exact_mod_cast hjk'
        nlinarith
      linarith

/-- Witness for C10: the single-timestamp database `dbFlat` yields zero
aggregates, and in `dbTwo` (timestamps 10 and 40, interval 30, so the
maximum 40 = 10 + 1·30 sits on a bucket start) the bucket key that
would contain 40 is left untouched. -/
theorem C10_witness :
    compute_aggregates dbFlat 1 30 = (0, dbFlat) ∧
      (compute_aggregates dbTwo 1 30).2.aggregates ⟨1, 40, 30⟩
        = dbTwo.aggregates ⟨1, 40, 30⟩ := by
  constructor
  · exact C10_max_timestamp_excluded.1 dbFlat 1 30 7 (by decide)
  · exact C10_max_timestamp_excluded.2 dbTwo 1 30 10 40 1 (by decide)
      (by decide) (by decide) (by norm_num)
      ⟨1, 40, 30⟩ (by norm_num) (by norm_num)

end HRM
